import Mathlib

/-!
Verification of the inferelator expression-data store and bootstrap
workflow (`inferelator/utils/data.py`, `inferelator/workflow.py`,
`inferelator_ng/workflow.py`, `inferelator_ng/single_cell_bbsr_tfa_workflow.py`)
against its natural-language specification.

Numeric entries are modelled as rationals (the floating-point operations the
claims exercise — min, max, comparison, subtraction of exactly representable
dyadics, elementwise scaling — are exact at the concrete inputs used).
Sparse matrices are modelled by their stored entries; implicit zeros are the
positions without a stored entry, matching scipy CSR/CSC semantics.
-/

namespace Inferelator

/-- Minimum of a list of rationals; `numpy.min` on a nonempty array
(`0` is a junk value for the empty list, never used under the
nonemptiness hypotheses of the theorems). -/
def listMinQ : List ℚ → ℚ
  | [] => 0
  | x :: xs => xs.foldl min x

/-- Maximum of a list of rationals; `numpy.max` on a nonempty array. -/
def listMaxQ : List ℚ → ℚ
  | [] => 0
  | x :: xs => xs.foldl max x

/-- `scipy.sparse` column minimum: the stored entries of the column plus the
implicit zeros (present exactly when fewer entries are stored than the
column has rows). -/
def spColMin (stored : List ℚ) (nRows : Nat) : ℚ :=
  if stored.length < nRows then listMinQ (0 :: stored) else listMinQ stored

/-- `scipy.sparse` column maximum, counting implicit zeros like `spColMin`. -/
def spColMax (stored : List ℚ) (nRows : Nat) : ℚ :=
  if stored.length < nRows then listMaxQ (0 :: stored) else listMaxQ stored

/-- Keep the entries of `xs` whose mask bit is true (`numpy` boolean-mask
indexing, order preserving). -/
def maskFilter {α : Type} : List α → List Bool → List α
  | [], _ => []
  | _, [] => []
  | x :: xs, b :: bs => if b then x :: maskFilter xs bs else maskFilter xs bs

/-- Number of true bits (`np.sum` of a boolean array). -/
def countTrue (bs : List Bool) : Nat := (bs.filter (· = true)).length

/-- The backing matrix of the store as `trim_genes` sees it: a dense
samples×genes array is a list of gene columns; a sparse (CSR or CSC) array
is, per gene column, the list of stored entries of that column together
with the common row count.  `getnnz(axis=0)` of a column is the number of
stored entries (explicit zeros included), exactly scipy's accounting. -/
inductive TrimBacking : Type
  | dense (cols : List (List ℚ))
  | sparse (cols : List (List ℚ)) (nRows : Nat)
  deriving DecidableEq

/-- Number of gene columns of the backing (`adata.shape[1]`). -/
def TrimBacking.numCols : TrimBacking → Nat
  | .dense cols => cols.length
  | .sparse cols _ => cols.length

/-- Column-subset of the backing by a boolean keep mask
(`adata[:, keep_column_bool]`). -/
def TrimBacking.restrict : TrimBacking → List Bool → TrimBacking
  | .dense cols, keep => .dense (maskFilter cols keep)
  | .sparse cols n, keep => .sparse (maskFilter cols keep) n

/-- The slice of `InferelatorData` state that `trim_genes` reads and writes:
gene labels (`adata.var` index), sample labels and sample metadata
(untouched by trimming), the integer flag and the machine epsilon of the
dtype (`np.finfo(dtype).eps`), the backing matrix, and the pending
`adata.uns["trim_gene_list"]` recorded by the `gene_data` setter. -/
structure ExprStore : Type where
  genes : List String
  sampleNames : List String
  sampleMeta : List (String × List String)
  isInteger : Bool
  eps : ℚ
  backing : TrimBacking
  trimGeneListUns : Option (List String)
  deriving DecidableEq

/-- Lines 301-306 of `data.py`: the keep mask from the explicit
`trim_gene_list` argument, else from `uns["trim_gene_list"]`, else all-true
(`var.index.isin(...)`). -/
def trimKeepList (st : ExprStore) (trimGeneList : Option (List String)) : List Bool :=
  match trimGeneList with
  | some l => st.genes.map (fun g => decide (g ∈ l))
  | none =>
    match st.trimGeneListUns with
    | some l => st.genes.map (fun g => decide (g ∈ l))
    | none => List.replicate st.genes.length true

/-- Line 309 of `data.py`: the constant-gene tolerance — `0` for integer
data, ten times machine epsilon for floating data. -/
def trimComp (st : ExprStore) : ℚ :=
  if st.isInteger then 0 else st.eps * 10

/-- Lines 312-317 of `data.py`: the per-column constant-gene keep bits.
Sparse: `getnnz(axis=0) > 0` and column min ≠ column max.  Dense: column
max − min strictly greater than the tolerance. -/
def constantKeep (st : ExprStore) : List Bool :=
  match st.backing with
  | .sparse cols nRows =>
    (cols.map (fun c => decide (0 < c.length))).zipWith
      (fun a b => a && b)
      (cols.map (fun c => decide (spColMin c nRows ≠ spColMax c nRows)))
  | .dense cols =>
    cols.map (fun c => decide (listMaxQ c - listMinQ c > trimComp st))

/-- The final keep mask (`keep_column_bool` after lines 301-317). -/
def trimMask (st : ExprStore) (removeConstantGenes : Bool)
    (trimGeneList : Option (List String)) : List Bool :=
  if removeConstantGenes then
    (trimKeepList st trimGeneList).zipWith (fun a b => a && b) (constantKeep st)
  else
    trimKeepList st trimGeneList

/-- `InferelatorData.trim_genes` (data.py lines 292-333).  The error value
carries the separately reported removal counts `(list_trim, var_zero_trim)`
of the `ValueError` message; the success value carries the updated store
and whether the matrix was rebuilt as an explicit copy (`True` on the
slice-and-copy branch, `False` on the leave-as-is `pass` branch). -/
def trimGenes (st : ExprStore) (removeConstantGenes : Bool)
    (trimGeneList : Option (List String)) :
    Except (Nat × Nat) (ExprStore × Bool) :=
  let keepList := trimKeepList st trimGeneList
  let listTrim := st.genes.length - countTrue keepList
  let keep := trimMask st removeConstantGenes trimGeneList
  let varZeroTrim :=
    if removeConstantGenes then st.genes.length - countTrue keep + listTrim
    else 0
  if countTrue keep = 0 then
    .error (listTrim, varZeroTrim)
  else if countTrue keep = st.backing.numCols then
    .ok (st, false)
  else
    .ok ({ st with
            genes := maskFilter st.genes keep,
            backing := st.backing.restrict keep }, true)

/-! ### Axis-aware scaling (`divide` / `multiply`, data.py lines 395-439)

A sparse matrix is modelled by its compressed-axis groups: for CSR the
stored entries grouped by row, for CSC grouped by column, each stored entry
an (other-axis index, value) pair.  `X.data` is the concatenation of the
groups in order, `X.getnnz(axis)` along the compressed axis is the list of
group sizes, and replacing `X.data` keeps indices and indptr. -/

/-- `X.data`: the flat stored-value array of a sparse matrix. -/
def spData (groups : List (List (Nat × ℚ))) : List ℚ :=
  (groups.map (fun g => g.map Prod.snd)).flatten

/-- `X.getnnz` along the compressed axis: stored entries per group
(explicit zeros included). -/
def spNnz (groups : List (List (Nat × ℚ))) : List Nat :=
  groups.map List.length

/-- `np.repeat(v, counts)`: each `v[i]` repeated `counts[i]` times. -/
def npRepeat (v : List ℚ) (counts : List Nat) : List ℚ :=
  ((v.zip counts).map (fun p => List.replicate p.2 p.1)).flatten

/-- Assigning a new flat array to `X.data`: the values are redistributed
over the groups in order; indices and group sizes are unchanged. -/
def spWithData : List (List (Nat × ℚ)) → List ℚ → List (List (Nat × ℚ))
  | [], _ => []
  | g :: gs, data =>
    (List.zipWith (fun p d => (p.1, d)) g (data.take g.length)) :: spWithData gs (data.drop g.length)

/-- The backing matrix as `divide`/`multiply` see it: dense (list of sample
rows), CSR (stored entries grouped by row, plus the column count), or CSC
(stored entries grouped by column, plus the row count). -/
inductive ScaleMat : Type
  | dense (rows : List (List ℚ))
  | csr (rows : List (List (Nat × ℚ))) (nCols : Nat)
  | csc (cols : List (List (Nat × ℚ))) (nRows : Nat)
  deriving DecidableEq

/-- The `ValueError` message of data.py lines 408 and 431 (copied verbatim;
the message has CSR and CSC swapped relative to the behaviour, but the
behaviour itself is what the branches implement). -/
def orientationMsg : String :=
  "axis = 1 only works for CSC & axis = 0 only works for CSR"

/-- The `ValueError` message of data.py lines 405 and 428. -/
def notAlignedMsg : String :=
  "Division array is not aligned"

/-- `InferelatorData.divide(div_val, axis)` for a 1-D `div_val` and an
explicit integer axis (data.py lines 395-416).  Integer data is first
promoted to floating (`convert_to_float`), the identity on the rational
values modelled here.  CSR admits `axis=1` by dividing `X.data` by
`np.repeat(div_val, getnnz(axis=1))`; CSC admits `axis=0` symmetrically;
the orthogonal sparse axis raises.  Dense broadcasts along either axis. -/
def divideVec : ScaleMat → List ℚ → Nat → Except String ScaleMat
  | .csr rows nCols, v, axis =>
    if axis = 1 then
      if v.length ≠ rows.length then .error notAlignedMsg
      else .ok (.csr
        (spWithData rows
          (List.zipWith (fun d s => d / s) (spData rows) (npRepeat v (spNnz rows)))) nCols)
    else .error orientationMsg
  | .csc cols nRows, v, axis =>
    if axis = 0 then
      if v.length ≠ cols.length then .error notAlignedMsg
      else .ok (.csc
        (spWithData cols
          (List.zipWith (fun d s => d / s) (spData cols) (npRepeat v (spNnz cols)))) nRows)
    else .error orientationMsg
  | .dense rows, v, axis =>
    if axis = 0 then
      if rows.all (fun r => r.length = v.length) then
        .ok (.dense (rows.map (fun r => List.zipWith (fun x s => x / s) r v)))
      else .error "operands could not be broadcast together"
    else if axis = 1 then
      if rows.length = v.length then
        .ok (.dense (List.zipWith (fun s r => r.map (fun x => x / s)) v rows))
      else .error "operands could not be broadcast together"
    else .error "axis must be 0, 1 or None"

/-- `InferelatorData.multiply(mult_val, axis)` (data.py lines 418-439), the
elementwise-product twin of `divideVec` with the same branch structure. -/
def multiplyVec : ScaleMat → List ℚ → Nat → Except String ScaleMat
  | .csr rows nCols, v, axis =>
    if axis = 1 then
      if v.length ≠ rows.length then .error notAlignedMsg
      else .ok (.csr
        (spWithData rows
          (List.zipWith (fun d s => d * s) (spData rows) (npRepeat v (spNnz rows)))) nCols)
    else .error orientationMsg
  | .csc cols nRows, v, axis =>
    if axis = 0 then
      if v.length ≠ cols.length then .error notAlignedMsg
      else .ok (.csc
        (spWithData cols
          (List.zipWith (fun d s => d * s) (spData cols) (npRepeat v (spNnz cols)))) nRows)
    else .error orientationMsg
  | .dense rows, v, axis =>
    if axis = 0 then
      if rows.all (fun r => r.length = v.length) then
        .ok (.dense (rows.map (fun r => List.zipWith (fun x s => x * s) r v)))
      else .error "operands could not be broadcast together"
    else if axis = 1 then
      if rows.length = v.length then
        .ok (.dense (List.zipWith (fun s r => r.map (fun x => x * s)) v rows))
      else .error "operands could not be broadcast together"
    else .error "axis must be 0, 1 or None"

/-! ### `transform` (data.py lines 375-393) -/

/-- `InferelatorData.transform` on a sparse backing (lines 377-378 and
382-383): the pseudocount increments `X.data` only, then `func` is applied
to `X.data` only; indices and indptr are untouched. -/
def transformSparse (f : ℚ → ℚ) (addPseudocount : Bool)
    (groups : List (List (Nat × ℚ))) : List (List (Nat × ℚ)) :=
  let d0 := spData groups
  let d1 := if addPseudocount then d0.map (fun x => x + 1) else d0
  spWithData groups (d1.map f)

/-- The dense entry at group `i`, cross index `j` of a sparse matrix: the
first stored value there, or `0` for an implicit zero. -/
def spEntry (groups : List (List (Nat × ℚ))) (i j : Nat) : ℚ :=
  match groups[i]? with
  | none => 0
  | some g =>
    match g.find? (fun p => p.1 == j) with
    | none => 0
    | some p => p.2

/-- Whether the sparse matrix stores an entry at group `i`, cross index `j`. -/
def spStored (groups : List (List (Nat × ℚ))) (i j : Nat) : Bool :=
  match groups[i]? with
  | none => false
  | some g => g.any (fun p => p.1 == j)

/-- `InferelatorData.transform` on a 2-D dense backing (lines 379-393).
`isInteger` is the store's integer flag, `probeSameDtype` the single-element
probe `type(func(X[0,0])) == X.dtype`, `memEff` the `memory_efficient`
argument.  The row-chunked branch (line 389) iterates
`range(np.ceil(shape[0] / chunksize))`; `np.ceil` returns a `numpy.float64`,
which Python's `range` rejects, so that branch unconditionally raises
`TypeError` before touching any row. -/
def transformDense (f : ℚ → ℚ) (addPseudocount isInteger memEff probeSameDtype : Bool)
    (rows : List (List ℚ)) : Except String (List (List ℚ)) :=
  let g := if addPseudocount then rows.map (fun r => r.map (fun x => x + 1)) else rows
  if isInteger then .ok (g.map (fun r => r.map f))
  else if !memEff && probeSameDtype then .ok (g.map (fun r => r.map f))
  else if memEff && probeSameDtype then
    .error "TypeError: numpy.float64 object cannot be interpreted as an integer"
  else .ok (g.map (fun r => r.map f))

/-! ### Bootstrap generation (`get_bootstraps`, inferelator/workflow.py
lines 311-317 and inferelator_ng/workflow.py lines 219-225) -/

/-- Modelled from the spec: one step of the pseudo-random generator behind
`numpy.random.RandomState` (numpy is an external collaborator, spec §6; the
spec requires only a generator deterministically seeded by the workflow
seed).  A 64-bit linear congruential step stands in for the Mersenne
twister. -/
def lcgStep (s : Nat) : Nat :=
  (6364136223846793005 * s + 1442695040888963407) % (2 ^ 64)

/-- The pseudo-random stream: `k` iterations of `lcgStep` from the seed. -/
def lcgIter (seed : Nat) : Nat → Nat
  | 0 => seed
  | k + 1 => lcgStep (lcgIter seed k)

/-- Modelled from the spec: `RandomState(seed).choice(range(n), size=(b, n))
.tolist()` — a `b × n` nested list of draws, each uniform on `[0, n)`, a
deterministic function of the seed. -/
def npChoiceMatrix (seed b n : Nat) : List (List Nat) :=
  (List.range b).map (fun i => (List.range n).map (fun j => lcgIter seed (i * n + j + 1) % n))

/-- `WorkflowBase.get_bootstraps`: `col_range = range(response.shape[1])`;
a fresh `RandomState` seeded with `random_seed`;
`choice(col_range, size=(num_bootstraps, response.shape[1])).tolist()`.
Identical in inferelator/workflow.py (311-317) and inferelator_ng/workflow.py
(219-225). -/
def getBootstraps (randomSeed numBootstraps responseCols : Nat) : List (List Nat) :=
  npChoiceMatrix randomSeed numBootstraps responseCols

/-! ### The per-bootstrap shared-statistic rendezvous
(`Single_Cell_BBSR_TFA_Workflow.run_bootstrap`,
inferelator_ng/single_cell_bbsr_tfa_workflow.py lines 27-63) -/

/-- The shared-store and solver events a rank can execute in
`run_bootstrap`:  `computeCLR` is the external MI/CLR kernel call,
`put` is `kvs.put` (publish), `view` is `kvs.view` (blocking read),
`runRegression` is the BBSR solver call, `kvsGet` is `kvs.get`
(read-and-remove). -/
inductive KvsEvent : Type
  | computeCLR
  | put (key : String)
  | view (key : String)
  | runRegression
  | kvsGet (key : String)
  deriving DecidableEq

/-- The shared-store key for bootstrap ordinal `idx`: `'mi %d' % idx`. -/
def miKey (idx : Nat) : String :=
  "mi " ++ toString idx

/-- The ordered event trace of `run_bootstrap` for one rank on bootstrap
ordinal `idx`.  Per inferelator_ng/workflow.py `is_master`, the master is
exactly rank 0: it computes the CLR statistic, publishes it under
`miKey idx`, runs the local regression, then removes the key with
`kvs.get`.  Every other rank blocks on `kvs.view` of the same key and only
then runs its local regression. -/
def runBootstrapTrace (rank idx : Nat) : List KvsEvent :=
  if rank = 0 then
    [.computeCLR, .put (miKey idx), .runRegression, .kvsGet (miKey idx)]
  else
    [.view (miKey idx), .runRegression]

/-- Decimal digit list of a natural number, most significant digit first
(used to reason about the `'mi %d'` key format). -/
def decDigits (n : Nat) : List Char :=
  if _hlt : n < 10 then [Nat.digitChar n]
  else decDigits (n / 10) ++ [Nat.digitChar (n % 10)]
  decreasing_by exact Nat.div_lt_self (by omega) (by omega)

/-! ### Priors loading (`WorkflowBase.set_gold_standard_and_priors`,
inferelator/workflow.py lines 164-188) -/

/-- A labeled table: the loaded priors or gold-standard dataframe. -/
structure PTable : Type where
  index : List String
  columns : List String
  values : List (List ℚ)
  deriving DecidableEq

/-- Modelled from the spec: `inferelator.utils.Validator.index_values_unique`
(declared in inferelator/utils, not under src/) — per the spec, "duplicate
index names detected in auxiliary inputs (e.g., priors) are logged as
warnings": the check raises `ValueError` exactly when the labels are not
unique, and the caller catches it. -/
def indexValuesUnique (labels : List String) : Except String Unit :=
  if labels.Nodup then .ok () else .error "ValueError: duplicate index values"

/-- `WorkflowBase.set_gold_standard_and_priors` with the two split flags at
their default `False`: reads both tables, then runs the two uniqueness
checks on the priors index and columns inside `try/except`, turning check
failures into warning prints and leaving both tables untouched.  Returns
the final `(priors_data, gold_standard)` pair and the warning lines
emitted. -/
def setGoldStandardAndPriors (priorsIn goldIn : PTable) :
    (PTable × PTable) × List String :=
  let w1 :=
    match indexValuesUnique priorsIn.index with
    | .ok _ => []
    | .error e => ["Duplicate gene(s) in prior index", e]
  let w2 :=
    match indexValuesUnique priorsIn.columns with
    | .ok _ => []
    | .error e => ["Duplicate tf(s) in prior index", e]
  ((priorsIn, goldIn), w1 ++ w2)

/-! ### Metadata assignment (`InferelatorData.meta_data` setter,
data.py lines 141-154; the `gene_data` setter, lines 160-177, joins its
frames the same way) -/

/-- A metadata dataframe: row labels, column labels, and per-row cells
(`none` is NaN / an undefined placeholder). -/
structure MetaDF : Type where
  index : List String
  cols : List String
  rows : List (List (Option String))
  deriving DecidableEq

/-- The row of `df` labeled `s` (first match), if any. -/
def dfRow (df : MetaDF) (s : String) : Option (List (Option String)) :=
  (df.index.zip df.rows).lookup s

/-- The cell of a row under column name `c` given the column list. -/
def dfCellOfRow (cols : List String) (row : List (Option String)) (c : String) :
    Option String :=
  ((cols.zip row).lookup c).getD none

/-- `DataFrame.reindex(labels)`: realign the rows to `newIndex`; labels
missing from the frame become all-NaN rows. -/
def dfReindex (df : MetaDF) (newIndex : List String) : MetaDF :=
  { index := newIndex, cols := df.cols,
    rows := newIndex.map (fun s => (dfRow df s).getD (List.replicate df.cols.length none)) }

/-- `df.loc[:, cs]`: the column subset, in the order of `cs`. -/
def dfSelectCols (df : MetaDF) (cs : List String) : MetaDF :=
  { index := df.index, cols := cs,
    rows := df.rows.map (fun row => cs.map (fun c => dfCellOfRow df.cols row c)) }

/-- Insert a string into a ≤-sorted list (for `pandas.Index.difference`,
whose result is sorted). -/
def insertStr (s : String) : List String → List String
  | [] => [s]
  | t :: ts => if s ≤ t then s :: t :: ts else t :: insertStr s ts

/-- Insertion sort on strings. -/
def sortStrings : List String → List String
  | [] => []
  | s :: ss => insertStr s (sortStrings ss)

/-- `pandas.Index.difference`: the sorted set of labels of the first index
not present in the second. -/
def indexDifference (a b : List String) : List String :=
  sortStrings ((a.filter (fun s => decide (s ∉ b))).dedup)

/-- `pd.concat((a, b))` along the default axis 0: the rows of both frames
stacked; the columns are the union in order of appearance; cells a frame
does not have become NaN. -/
def pdConcatRows (a b : MetaDF) : MetaDF :=
  let cols := a.cols ++ b.cols.filter (fun c => decide (c ∉ a.cols))
  { index := a.index ++ b.index,
    cols := cols,
    rows := a.rows.map (fun r => cols.map (fun c => dfCellOfRow a.cols r c))
            ++ b.rows.map (fun r => cols.map (fun c => dfCellOfRow b.cols r c)) }

/-- The sample axis of the store as the `meta_data` setter sees it. -/
structure ObsStore : Type where
  sampleNames : List String
  obs : MetaDF
  deriving DecidableEq

/-- `InferelatorData.meta_data` setter (data.py lines 141-154): the new
table is reindexed to the current sample names; when existing metadata has
at least one column, the kept old columns (`columns.difference`) are joined
to it with `pd.concat` — the default axis 0 — and the result is assigned to
`adata.obs`.  The assignment enforces AnnData's invariant that `obs` has
exactly `n_obs` rows (anndata is an external collaborator; its `obs` setter
validates the length), so a wrong-length frame raises `ValueError`. -/
def metaDataSet (st : ObsStore) (newMeta : MetaDF) : Except String ObsStore :=
  let nm := dfReindex newMeta st.sampleNames
  if st.obs.cols.length > 0 then
    let keepColumns := indexDifference st.obs.cols nm.cols
    let joined := pdConcatRows nm (dfSelectCols st.obs keepColumns)
    if joined.index.length = st.sampleNames.length then
      .ok { st with obs := joined }
    else
      .error "ValueError: observation annotations must have as many rows as the data matrix"
  else
    .ok { st with obs := nm }

/-- Concrete store for the metadata-merge check: two samples, existing
metadata with the single column `a`. -/
def c1Store : ObsStore :=
  { sampleNames := ["s0", "s1"],
    obs := { index := ["s0", "s1"], cols := ["a"],
             rows := [[some "1"], [some "2"]] } }

/-- Concrete second metadata assignment: a fresh column `b` for the same
two samples. -/
def c1NewMeta : MetaDF :=
  { index := ["s0", "s1"], cols := ["b"],
    rows := [[some "x"], [some "y"]] }

/-- Concrete store for the constant-gene tolerance check: one gene over two
samples, sparse float64 backing storing the single entry `2⁻⁵²` (the other
entry is an implicit zero), so the column's value range is `2⁻⁵²`, strictly
between zero and the dense-path tolerance `10 · 2⁻⁵²`. -/
def c4Store : ExprStore :=
  { genes := ["g0"],
    sampleNames := ["s0", "s1"],
    sampleMeta := [],
    isInteger := false,
    eps := 1 / 4503599627370496,
    backing := .sparse [[1 / 4503599627370496]] 2,
    trimGeneListUns := none }

/-- Concrete priors table with a duplicated gene label. -/
def dupPriors : PTable :=
  { index := ["g1", "g1"], columns := ["t1"], values := [[1], [1]] }

/-- Concrete gold-standard table. -/
def demoGold : PTable :=
  { index := ["g1"], columns := ["t1"], values := [[1]] }

/-- Concrete two-gene integer store used by witnesses. -/
def demoStore : ExprStore :=
  { genes := ["g0", "g1"], sampleNames := ["s0"], sampleMeta := [("cond", ["a"])],
    isInteger := true, eps := 0, backing := .dense [[1], [2]],
    trimGeneListUns := none }

/-- `demoStore` after trimming to the allow-list `["g1"]`. -/
def demoStoreTrimmed : ExprStore :=
  { demoStore with genes := ["g1"], backing := .dense [[2]] }

/-! ## Helper lemmas -/

theorem countTrue_nil : countTrue [] = 0 := rfl

theorem countTrue_cons (b : Bool) (bs : List Bool) :
    countTrue (b :: bs) = (if b then 1 else 0) + countTrue bs := by
  cases b <;> simp [countTrue, List.filter, Nat.add_comm]

theorem countTrue_le (bs : List Bool) : countTrue bs ≤ bs.length := by
  induction bs with
  | nil => simp [countTrue]
  | cons b bs ih =>
    rw [countTrue_cons]
    cases b <;> simp <;> omega

theorem countTrue_map {α : Type} (xs : List α) (p : α → Bool) :
    countTrue (xs.map p) = (xs.filter p).length := by
  induction xs with
  | nil => rfl
  | cons x xs ih =>
    rw [List.map_cons, countTrue_cons, List.filter_cons]
    by_cases h : p x = true
    · simp [h, ih, Nat.add_comm]
    · simp at h
      simp [h, ih]

theorem countTrue_eq_length (bs : List Bool) (h : countTrue bs = bs.length) :
    ∀ b ∈ bs, b = true := by
  induction bs with
  | nil => simp
  | cons b bs ih =>
    rw [countTrue_cons] at h
    cases b with
    | true =>
      have hbs : countTrue bs = bs.length := by
        simp only [List.length_cons] at h
        simp at h
        omega
      intro x hx
      rcases hx with _ | hx
      · rfl
      · exact ih hbs x (by assumption)
    | false =>
      have := countTrue_le bs
      simp at h
      omega

theorem maskFilter_length {α : Type} (xs : List α) (bs : List Bool)
    (h : xs.length = bs.length) : (maskFilter xs bs).length = countTrue bs := by
  induction xs generalizing bs with
  | nil =>
    cases bs with
    | nil => rfl
    | cons b bs => simp at h
  | cons x xs ih =>
    cases bs with
    | nil => simp at h
    | cons b bs =>
      simp only [List.length_cons, Nat.succ.injEq] at h
      rw [countTrue_cons]
      cases b with
      | false => simp [maskFilter, ih bs h]
      | true =>
        simp [maskFilter, ih bs h]
        omega

theorem maskFilter_all_true {α : Type} (xs : List α) (bs : List Bool)
    (h : xs.length = bs.length) (hc : countTrue bs = bs.length) :
    maskFilter xs bs = xs := by
  induction xs generalizing bs with
  | nil => cases bs <;> rfl
  | cons x xs ih =>
    cases bs with
    | nil => simp at h
    | cons b bs =>
      simp only [List.length_cons, Nat.succ.injEq] at h
      have hb : b = true := countTrue_eq_length (b :: bs) hc b (by simp)
      subst hb
      have hcb : countTrue bs = bs.length := by
        rw [countTrue_cons] at hc
        simp at hc
        omega
      simp [maskFilter, ih bs h hcb]

theorem maskFilter_map {α : Type} (xs : List α) (p : α → Bool) :
    maskFilter xs (xs.map p) = xs.filter p := by
  induction xs with
  | nil => rfl
  | cons x xs ih =>
    rw [List.map_cons, List.filter_cons]
    by_cases h : p x = true
    · simp [maskFilter, h, ih]
    · simp at h
      simp [maskFilter, h, ih]

theorem zipWith_and_replicate_true (bs : List Bool) (n : Nat) (h : bs.length = n) :
    List.zipWith (fun a b => a && b) (List.replicate n true) bs = bs := by
  induction bs generalizing n with
  | nil => subst h; rfl
  | cons b bs ih =>
    cases n with
    | zero => simp at h
    | succ m =>
      simp only [List.length_cons, Nat.succ.injEq] at h
      simp [List.replicate, ih m h]

theorem trimKeepList_length (st : ExprStore) (tl : Option (List String)) :
    (trimKeepList st tl).length = st.genes.length := by
  cases tl with
  | some l => simp [trimKeepList]
  | none => cases h : st.trimGeneListUns <;> simp [trimKeepList, h]

theorem constantKeep_length (st : ExprStore) :
    (constantKeep st).length = st.backing.numCols := by
  cases h : st.backing with
  | dense cols => simp [constantKeep, h, TrimBacking.numCols]
  | sparse cols n => simp [constantKeep, h, TrimBacking.numCols]

theorem trimMask_length (st : ExprStore) (rc : Bool) (tl : Option (List String))
    (hlen : st.genes.length = st.backing.numCols) :
    (trimMask st rc tl).length = st.genes.length := by
  cases rc with
  | false => simp [trimMask, trimKeepList_length]
  | true =>
    simp [trimMask, trimKeepList_length, constantKeep_length, hlen]

/-! ## Claim theorems -/

/-- C2: with `remove_constant_genes=False` and `trim_gene_list=L`,
`trim_genes` retains exactly the genes in `L ∩ existing_genes` in their
existing column order, and raises (reporting the list-criterion and
constant-criterion removal counts separately, the latter zero) if and only
if that intersection is empty. -/
theorem trim_genes_allow_list (st : ExprStore) (L : List String)
    (hlen : st.genes.length = st.backing.numCols) :
    (st.genes.filter (fun g => decide (g ∈ L)) = [] →
      trimGenes st false (some L) = .error (st.genes.length, 0)) ∧
    (st.genes.filter (fun g => decide (g ∈ L)) ≠ [] →
      ∃ st2 copied, trimGenes st false (some L) = .ok (st2, copied) ∧
        st2.genes = st.genes.filter (fun g => decide (g ∈ L))) := by
  have hmask : trimMask st false (some L) = st.genes.map (fun g => decide (g ∈ L)) := by
    simp [trimMask, trimKeepList]
  have hkeep : trimKeepList st (some L) = st.genes.map (fun g => decide (g ∈ L)) := by
    simp [trimKeepList]
  have hct : countTrue (st.genes.map (fun g => decide (g ∈ L))) =
      (st.genes.filter (fun g => decide (g ∈ L))).length :=
    countTrue_map _ _
  constructor
  · intro h
    rw [trimGenes]
    simp only [hmask, hkeep, hct, h, List.length_nil, if_pos rfl]
    simp
  · intro h
    have hpos : 0 < (st.genes.filter (fun g => decide (g ∈ L))).length :=
      List.length_pos.mpr h
    rw [trimGenes]
    simp only [hmask, hkeep, hct]
    rw [if_neg (by omega)]
    by_cases hall : (st.genes.filter (fun g => decide (g ∈ L))).length = st.backing.numCols
    · rw [if_pos hall]
      refine ⟨st, false, rfl, ?_⟩
      have : (st.genes.filter (fun g => decide (g ∈ L))).length = st.genes.length := by
        omega
      exact ((List.filter_sublist st.genes).eq_of_length this).symm
    · rw [if_neg hall]
      exact ⟨_, true, rfl, by simp [maskFilter_map]⟩

/-- Witness for C2 at a concrete store: two dense genes, allow-list keeping
the second one. -/
theorem trim_genes_allow_list_witness :
    ∃ st2 copied,
      trimGenes demoStore false (some ["g1"]) = .ok (st2, copied) ∧
      st2.genes = demoStore.genes.filter (fun g => decide (g ∈ ["g1"])) :=
  (trim_genes_allow_list demoStore ["g1"] rfl).2 (by decide)

/-- C5: when `trim_genes` succeeds, the sample axis (labels and metadata)
is unchanged; the store object is left as-is exactly when the keep mask
retains every gene (no defensive copy), and otherwise the store is rebuilt
restricted to the keep mask, with strictly fewer genes. -/
theorem trim_genes_copy_semantics (st : ExprStore) (rc : Bool)
    (tl : Option (List String)) (st2 : ExprStore) (copied : Bool)
    (hlen : st.genes.length = st.backing.numCols)
    (h : trimGenes st rc tl = .ok (st2, copied)) :
    st2.sampleNames = st.sampleNames ∧ st2.sampleMeta = st.sampleMeta ∧
    (copied = false →
      st2 = st ∧ countTrue (trimMask st rc tl) = st.genes.length) ∧
    (copied = true →
      st2.genes = maskFilter st.genes (trimMask st rc tl) ∧
      st2.backing = st.backing.restrict (trimMask st rc tl) ∧
      st2.genes.length < st.genes.length) := by
  rw [trimGenes] at h
  by_cases h0 : countTrue (trimMask st rc tl) = 0
  · simp only [h0, if_pos rfl] at h
    cases h
  · rw [if_neg h0] at h
    by_cases hall : countTrue (trimMask st rc tl) = st.backing.numCols
    · rw [if_pos hall] at h
      injection h with h
      injection h with h1 h2
      subst h1
      subst h2
      exact ⟨rfl, rfl, fun _ => ⟨rfl, by omega⟩, fun hc => Bool.noConfusion hc⟩
    · rw [if_neg hall] at h
      injection h with h
      injection h with h1 h2
      subst h1
      subst h2
      have hml : (maskFilter st.genes (trimMask st rc tl)).length =
          countTrue (trimMask st rc tl) :=
        maskFilter_length _ _ (trimMask_length st rc tl hlen).symm
      have hle : countTrue (trimMask st rc tl) ≤ st.genes.length := by
        have := countTrue_le (trimMask st rc tl)
        rw [trimMask_length st rc tl hlen] at this
        exact this
      refine ⟨rfl, rfl, fun hc => Bool.noConfusion hc, fun _ => ⟨rfl, rfl, ?_⟩⟩
      show (maskFilter st.genes (trimMask st rc tl)).length < st.genes.length
      omega

/-- Witness for C5: trimming `demoStore` to `["g1"]` removes one gene, so
the matrix is rebuilt (`copied = true`) and the sample axis is unchanged. -/
theorem trim_genes_copy_semantics_witness :
    demoStoreTrimmed.sampleNames = demoStore.sampleNames ∧
    demoStoreTrimmed.sampleMeta = demoStore.sampleMeta ∧
    (true = false →
      demoStoreTrimmed = demoStore ∧
      countTrue (trimMask demoStore false (some ["g1"])) = demoStore.genes.length) ∧
    (true = true →
      demoStoreTrimmed.genes = maskFilter demoStore.genes (trimMask demoStore false (some ["g1"])) ∧
      demoStoreTrimmed.backing = demoStore.backing.restrict (trimMask demoStore false (some ["g1"])) ∧
      demoStoreTrimmed.genes.length < demoStore.genes.length) :=
  trim_genes_copy_semantics demoStore false (some ["g1"]) demoStoreTrimmed true rfl rfl

/-- C4 counterexample: the claim "keeps a gene exactly when its value range
exceeds the tolerance (10× machine epsilon for floating data)" fails on a
sparse float64 backing.  `c4Store` has one gene whose column holds
`{0, 2⁻⁵²}`: its range `2⁻⁵²` does NOT exceed the tolerance `10·2⁻⁵²`, yet
`trim_genes(remove_constant_genes=True)` keeps the gene (the sparse branch
tests only `nnz > 0` and `min ≠ max`). -/
theorem trim_constant_tolerance_counterexample :
    trimGenes c4Store true none = .ok (c4Store, false) ∧
    ¬ (spColMax [(1 : ℚ) / 4503599627370496] 2 -
        spColMin [(1 : ℚ) / 4503599627370496] 2 > trimComp c4Store) := by
  have hmin : spColMin [(1 : ℚ) / 4503599627370496] 2 = 0 := by
    rw [spColMin]
    norm_num [listMinQ, min_def]
  have hmax : spColMax [(1 : ℚ) / 4503599627370496] 2 = 1 / 4503599627370496 := by
    rw [spColMax]
    norm_num [listMaxQ, max_def]
  have hck : constantKeep c4Store = [true] := by
    show List.zipWith (fun a b => a && b)
      [decide (0 < ([(1 : ℚ) / 4503599627370496] : List ℚ).length)]
      [decide (spColMin [(1 : ℚ) / 4503599627370496] 2 ≠
        spColMax [(1 : ℚ) / 4503599627370496] 2)] = [true]
    rw [hmin, hmax]
    norm_num
  have hkl : trimKeepList c4Store none = [true] := rfl
  have hmask : trimMask c4Store true none = [true] := by
    have h1 : trimMask c4Store true none =
        List.zipWith (fun a b => a && b) (trimKeepList c4Store none) (constantKeep c4Store) := rfl
    rw [h1, hkl, hck]
    rfl
  constructor
  · simp only [trimGenes, hmask, hkl]
    norm_num [countTrue, c4Store, TrimBacking.numCols]
  · rw [hmin, hmax]
    norm_num [trimComp, c4Store]

/-- C4 amended: with `remove_constant_genes=True` (and no pending trim
list), a gene is kept exactly when — dense backing — its column range
`max − min` strictly exceeds the tolerance (`0` for integer data,
`10× machine epsilon` for floating data), and — sparse backing — its column
has at least one stored entry and its min differs from its max (range
`> 0`; the `10×eps` tolerance is not applied to sparse data). -/
theorem trim_genes_constant_criterion (st : ExprStore)
    (hUns : st.trimGeneListUns = none)
    (hlen : st.genes.length = st.backing.numCols) :
    trimMask st true none =
      (match st.backing with
        | .dense cols =>
          cols.map (fun c => decide (listMaxQ c - listMinQ c > trimComp st))
        | .sparse cols nRows =>
          cols.map (fun c =>
            decide (0 < c.length ∧ spColMin c nRows ≠ spColMax c nRows))) ∧
    ((∃ e, trimGenes st true none = .error e) ↔
      countTrue (trimMask st true none) = 0) ∧
    (∀ st2 copied, trimGenes st true none = .ok (st2, copied) →
      st2.genes = maskFilter st.genes (trimMask st true none)) := by
  have h2 : trimKeepList st none = List.replicate st.genes.length true := by
    simp [trimKeepList, hUns]
  have hmask : trimMask st true none = constantKeep st := by
    have h1 : trimMask st true none =
        List.zipWith (fun a b => a && b) (trimKeepList st none) (constantKeep st) := rfl
    rw [h1, h2]
    exact zipWith_and_replicate_true (constantKeep st)
      st.genes.length (by rw [constantKeep_length, ← hlen])
  refine ⟨?_, ?_, ?_⟩
  · rw [hmask]
    cases hb : st.backing with
    | dense cols => simp [constantKeep, hb]
    | sparse cols nRows =>
      simp only [constantKeep, hb]
      rw [List.zipWith_map_left, List.zipWith_map_right, List.zipWith_same]
      simp [Bool.decide_and]
  · constructor
    · rintro ⟨e, he⟩
      by_contra h0
      simp only [trimGenes] at he
      rw [if_neg h0] at he
      split at he <;> simp at he
    · intro h0
      have he : trimGenes st true none = .error
          (st.genes.length - countTrue (trimKeepList st none),
           st.genes.length - countTrue (trimMask st true none) +
             (st.genes.length - countTrue (trimKeepList st none))) := by
        simp only [trimGenes]
        rw [if_pos h0]
        simp
      exact ⟨_, he⟩
  · intro st2 copied h
    simp only [trimGenes] at h
    by_cases h0 : countTrue (trimMask st true none) = 0
    · rw [if_pos h0] at h
      simp at h
    · rw [if_neg h0] at h
      by_cases hall : countTrue (trimMask st true none) = st.backing.numCols
      · rw [if_pos hall] at h
        injection h with h
        injection h with h1 _h2
        subst h1
        exact (maskFilter_all_true st.genes (trimMask st true none)
          (trimMask_length st true none hlen).symm
          (by rw [trimMask_length st true none hlen]; omega)).symm
      · rw [if_neg hall] at h
        injection h with h
        injection h with h1 _h2
        subst h1
        rfl

/-- Witness for the amended C4 at the concrete `demoStore` (dense integer
backing). -/
theorem trim_genes_constant_criterion_witness :
    trimMask demoStore true none =
      (match demoStore.backing with
        | .dense cols =>
          cols.map (fun c => decide (listMaxQ c - listMinQ c > trimComp demoStore))
        | .sparse cols nRows =>
          cols.map (fun c =>
            decide (0 < c.length ∧ spColMin c nRows ≠ spColMax c nRows))) :=
  (trim_genes_constant_criterion demoStore rfl rfl).1

/-! ## Sparse-scaling lemmas -/

theorem npRepeat_cons (x : ℚ) (v : List ℚ) (c : Nat) (cs : List Nat) :
    npRepeat (x :: v) (c :: cs) = List.replicate c x ++ npRepeat v cs := by
  simp [npRepeat]

theorem spData_cons (g : List (Nat × ℚ)) (gs : List (List (Nat × ℚ))) :
    spData (g :: gs) = g.map Prod.snd ++ spData gs := by
  simp [spData]

theorem zip_group_scale (op : ℚ → ℚ → ℚ) (s : ℚ) (g : List (Nat × ℚ)) :
    List.zipWith (fun p d => (p.1, d)) g
      (List.zipWith (fun d t => op d t) (g.map Prod.snd) (List.replicate g.length s)) =
    g.map (fun p => (p.1, op p.2 s)) := by
  induction g with
  | nil => rfl
  | cons p ps ih => simp [List.replicate_succ, ih]

/-- Writing `zipWith op X.data (np.repeat v nnz)` back into the sparse
structure scales every stored entry of group `i` by `v[i]`. -/
theorem spWithData_scale (op : ℚ → ℚ → ℚ) (v : List ℚ)
    (groups : List (List (Nat × ℚ))) (h : v.length = groups.length) :
    spWithData groups
      (List.zipWith (fun d s => op d s) (spData groups) (npRepeat v (spNnz groups))) =
    List.zipWith (fun s g => g.map (fun p => (p.1, op p.2 s))) v groups := by
  induction groups generalizing v with
  | nil =>
    cases v with
    | nil => rfl
    | cons s v => simp at h
  | cons g gs ih =>
    cases v with
    | nil => simp at h
    | cons s v =>
      simp only [List.length_cons, Nat.succ.injEq] at h
      rw [spData_cons, show spNnz (g :: gs) = g.length :: spNnz gs from rfl, npRepeat_cons]
      rw [List.zipWith_append _ _ _ _ _ (by simp)]
      simp only [spWithData]
      rw [List.take_left' (by simp), List.drop_left' (by simp)]
      rw [zip_group_scale, ih v h]
      rfl

/-- Writing `X.data.map h` back into the sparse structure maps every stored
value in place. -/
theorem spWithData_map (h : ℚ → ℚ) (groups : List (List (Nat × ℚ))) :
    spWithData groups ((spData groups).map h) =
    groups.map (fun g => g.map (fun p => (p.1, h p.2))) := by
  induction groups with
  | nil => rfl
  | cons g gs ih =>
    rw [spData_cons, List.map_append]
    simp only [spWithData]
    rw [List.take_left' (by simp), List.drop_left' (by simp)]
    rw [ih]
    congr 1
    rw [List.map_map]
    rw [List.zipWith_map_right]
    rw [List.zipWith_same]
    rfl

/-! ## Claim theorems (continued) -/

/-- C3: on a CSR backing, `divide(v, axis=0)` raises the orientation error
while `divide(v, axis=1)` (with `v` of length = sample count) divides every
stored entry of row `i` by `v[i]` via the `np.repeat` construction; a CSC
backing admits `axis=0` and raises on `axis=1`; and `multiply` follows the
same orientation rule. -/
theorem divide_multiply_orientation
    (rows cols : List (List (Nat × ℚ))) (nCols nRows : Nat) (v w : List ℚ)
    (hr : v.length = rows.length) (hc : w.length = cols.length) :
    divideVec (.csr rows nCols) v 0 = .error orientationMsg ∧
    divideVec (.csr rows nCols) v 1 =
      .ok (.csr (List.zipWith (fun s g => g.map (fun p => (p.1, p.2 / s))) v rows) nCols) ∧
    divideVec (.csc cols nRows) w 1 = .error orientationMsg ∧
    divideVec (.csc cols nRows) w 0 =
      .ok (.csc (List.zipWith (fun s g => g.map (fun p => (p.1, p.2 / s))) w cols) nRows) ∧
    multiplyVec (.csr rows nCols) v 0 = .error orientationMsg ∧
    multiplyVec (.csr rows nCols) v 1 =
      .ok (.csr (List.zipWith (fun s g => g.map (fun p => (p.1, p.2 * s))) v rows) nCols) ∧
    multiplyVec (.csc cols nRows) w 1 = .error orientationMsg ∧
    multiplyVec (.csc cols nRows) w 0 =
      .ok (.csc (List.zipWith (fun s g => g.map (fun p => (p.1, p.2 * s))) w cols) nRows) := by
  have hcr : ¬ (v.length ≠ rows.length) := by simp [hr]
  have hcc : ¬ (w.length ≠ cols.length) := by simp [hc]
  refine ⟨rfl, ?_, rfl, ?_, rfl, ?_, rfl, ?_⟩
  · simp only [divideVec]
    rw [if_pos trivial, if_neg hcr]
    rw [spWithData_scale (fun a b => a / b) v rows hr]
  · simp only [divideVec]
    rw [if_pos trivial, if_neg hcc]
    rw [spWithData_scale (fun a b => a / b) w cols hc]
  · simp only [multiplyVec]
    rw [if_pos trivial, if_neg hcr]
    rw [spWithData_scale (fun a b => a * b) v rows hr]
  · simp only [multiplyVec]
    rw [if_pos trivial, if_neg hcc]
    rw [spWithData_scale (fun a b => a * b) w cols hc]

/-- Witness for C3 at a concrete 2×2 CSR/CSC pair. -/
theorem divide_multiply_orientation_witness :
    divideVec (.csr [[(0, (2 : ℚ))], [(1, 4), (0, 6)]] 2) [2, 2] 0 = .error orientationMsg ∧
    divideVec (.csr [[(0, (2 : ℚ))], [(1, 4), (0, 6)]] 2) [2, 2] 1 =
      .ok (.csr (List.zipWith (fun s g => g.map (fun p => (p.1, p.2 / s)))
        [2, 2] [[(0, (2 : ℚ))], [(1, 4), (0, 6)]]) 2) :=
  ⟨(divide_multiply_orientation [[(0, (2 : ℚ))], [(1, 4), (0, 6)]]
      [[(0, (2 : ℚ))], [(1, 4), (0, 6)]] 2 2 [2, 2] [2, 2] rfl rfl).1,
   (divide_multiply_orientation [[(0, (2 : ℚ))], [(1, 4), (0, 6)]]
      [[(0, (2 : ℚ))], [(1, 4), (0, 6)]] 2 2 [2, 2] [2, 2] rfl rfl).2.1⟩

/-- `transform(fn, add_pseudocount=True)` on a sparse backing maps each
stored value `x` to `fn(x + 1)`, keeping indices unchanged. -/
theorem transformSparse_eq_map (f : ℚ → ℚ) (groups : List (List (Nat × ℚ))) :
    transformSparse f true groups =
    groups.map (fun g => g.map (fun p => (p.1, f (p.2 + 1)))) := by
  show spWithData groups (((spData groups).map (fun x => x + 1)).map f) = _
  rw [List.map_map]
  exact spWithData_map (fun x => f (x + 1)) groups

theorem spEntry_none {groups : List (List (Nat × ℚ))} {i : Nat} (j : Nat)
    (h : groups[i]? = none) : spEntry groups i j = 0 := by
  simp [spEntry, h]

theorem spEntry_find_none {groups : List (List (Nat × ℚ))} {i j : Nat}
    {g : List (Nat × ℚ)} (h : groups[i]? = some g)
    (hf : g.find? (fun p => p.1 == j) = none) : spEntry groups i j = 0 := by
  simp [spEntry, h, hf]

theorem spEntry_find_some {groups : List (List (Nat × ℚ))} {i j : Nat}
    {g : List (Nat × ℚ)} {p : Nat × ℚ} (h : groups[i]? = some g)
    (hf : g.find? (fun q => q.1 == j) = some p) : spEntry groups i j = p.2 := by
  simp [spEntry, h, hf]

theorem spStored_none {groups : List (List (Nat × ℚ))} {i j : Nat}
    (h : groups[i]? = none) : spStored groups i j = false := by
  simp [spStored, h]

theorem spStored_group {groups : List (List (Nat × ℚ))} {i j : Nat}
    {g : List (Nat × ℚ)} (h : groups[i]? = some g) :
    spStored groups i j = g.any (fun p => p.1 == j) := by
  simp [spStored, h]

/-- C10: for a sparse backing, `transform(fn, add_pseudocount=True)`
touches only the stored entries: a position holding an implicit zero is
exactly zero before and after (whatever `fn 1` is), and a stored value `x`
becomes `fn (x + 1)`. -/
theorem transform_sparse_pseudocount (f : ℚ → ℚ)
    (groups : List (List (Nat × ℚ))) (i j : Nat) :
    (spStored groups i j = false →
      spEntry groups i j = 0 ∧ spEntry (transformSparse f true groups) i j = 0) ∧
    (spStored groups i j = true →
      spEntry (transformSparse f true groups) i j = f (spEntry groups i j + 1)) := by
  rw [transformSparse_eq_map]
  cases hg : groups[i]? with
  | none =>
    have hmap : (groups.map (fun g => g.map (fun p => (p.1, f (p.2 + 1)))))[i]? = none := by
      rw [List.getElem?_map, hg]
      rfl
    refine ⟨fun _ => ⟨spEntry_none j hg, spEntry_none j hmap⟩, fun hs => ?_⟩
    rw [spStored_none hg] at hs
    cases hs
  | some g =>
    have hmap : (groups.map (fun g => g.map (fun p => (p.1, f (p.2 + 1)))))[i]? =
        some (g.map (fun p => (p.1, f (p.2 + 1)))) := by
      rw [List.getElem?_map, hg]
      rfl
    have hfind : (g.map (fun p => (p.1, f (p.2 + 1)))).find? (fun p => p.1 == j) =
        (g.find? (fun p => p.1 == j)).map (fun p => (p.1, f (p.2 + 1))) := by
      rw [List.find?_map]
      rfl
    cases hf : g.find? (fun p => p.1 == j) with
    | none =>
      refine ⟨fun _ => ⟨spEntry_find_none hg hf,
        spEntry_find_none hmap (by rw [hfind, hf]; rfl)⟩, fun hs => ?_⟩
      rw [spStored_group hg] at hs
      obtain ⟨p, hp, hpj⟩ := List.any_eq_true.mp hs
      exact absurd hpj (List.find?_eq_none.mp hf p hp)
    | some p =>
      refine ⟨fun hs => ?_, fun _ => ?_⟩
      · have hmem := List.mem_of_find?_eq_some hf
        have hpred := List.find?_some hf
        rw [spStored_group hg] at hs
        rw [List.any_eq_true.mpr ⟨p, hmem, hpred⟩] at hs
        cases hs
      · rw [spEntry_find_some hmap (by rw [hfind, hf]; rfl), spEntry_find_some hg hf]

/-- Witness for C10: a 1×1 sparse matrix storing `3` at position `(0,0)`;
position `(0,1)` is an implicit zero and stays zero, while the stored entry
becomes `fn(3 + 1)`. -/
theorem transform_sparse_pseudocount_witness :
    (spEntry [[((0 : Nat), (3 : ℚ))]] 0 1 = 0 ∧
      spEntry (transformSparse (fun x => x * 2) true [[((0 : Nat), (3 : ℚ))]]) 0 1 = 0) ∧
    spEntry (transformSparse (fun x => x * 2) true [[((0 : Nat), (3 : ℚ))]]) 0 0 =
      (fun x => x * 2) (spEntry [[((0 : Nat), (3 : ℚ))]] 0 0 + 1) :=
  ⟨(transform_sparse_pseudocount (fun x => x * 2) [[((0 : Nat), (3 : ℚ))]] 0 1).1 rfl,
   (transform_sparse_pseudocount (fun x => x * 2) [[((0 : Nat), (3 : ℚ))]] 0 0).2 rfl⟩

/-- C7: the memory-efficient chunked path of `transform` on a 2-D dense
floating store whose probe preserves the dtype does not chunk over the rows
at all — `range(np.ceil(shape[0]/chunksize))` raises `TypeError` because
`np.ceil` returns a `numpy.float64` — while the same call without
`memory_efficient` succeeds and applies `fn` to every element. -/
theorem transform_chunked_type_error :
    transformDense (fun x => x) false false true true [[1], [2], [3]] =
      .error "TypeError: numpy.float64 object cannot be interpreted as an integer" ∧
    transformDense (fun x => x) false false false true [[1], [2], [3]] =
      .ok [[1], [2], [3]] :=
  ⟨rfl, rfl⟩

/-- C6: `get_bootstraps` is a pure function of `(seed, num_bootstraps, n)`
— two calls with identical arguments are identical — and it returns
`num_bootstraps` index sequences, each of length exactly `n` with every
entry in `[0, n)`. -/
theorem get_bootstraps_deterministic (seed b n : Nat) (hn : 0 < n) :
    getBootstraps seed b n = getBootstraps seed b n ∧
    (getBootstraps seed b n).length = b ∧
    ∀ row ∈ getBootstraps seed b n, row.length = n ∧ ∀ x ∈ row, x < n := by
  refine ⟨rfl, by simp [getBootstraps, npChoiceMatrix], ?_⟩
  intro row hrow
  simp only [getBootstraps, npChoiceMatrix, List.mem_map] at hrow
  obtain ⟨i, _, rfl⟩ := hrow
  refine ⟨by simp, ?_⟩
  intro x hx
  simp only [List.mem_map] at hx
  obtain ⟨j, _, rfl⟩ := hx
  exact Nat.mod_lt _ hn

/-- Witness for C6 at the spec's end-to-end instance
`seed=0, bootstrap_count=2, sample_count=5`. -/
theorem get_bootstraps_witness :
    (getBootstraps 0 2 5).length = 2 ∧
    ∀ row ∈ getBootstraps 0 2 5, row.length = 5 ∧ ∀ x ∈ row, x < 5 :=
  ⟨(get_bootstraps_deterministic 0 2 5 (by decide)).2.1,
   (get_bootstraps_deterministic 0 2 5 (by decide)).2.2⟩

/-! ## Decimal-representation lemmas (injectivity of the `'mi %d'` key) -/

theorem toDigitsCore_eq_decDigits (fuel : Nat) :
    ∀ n ds, n < fuel → Nat.toDigitsCore 10 fuel n ds = decDigits n ++ ds := by
  induction fuel with
  | zero => intro n ds h; omega
  | succ f ih =>
    intro n ds h
    by_cases h10 : n / 10 = 0
    · have hn : n < 10 := by omega
      rw [Nat.toDigitsCore]
      rw [if_pos h10, decDigits, dif_pos hn, Nat.mod_eq_of_lt hn, List.singleton_append]
    · have hpos : 0 < n := by
        rcases Nat.eq_zero_or_pos n with h0 | h0
        · subst h0; simp at h10
        · exact h0
      have h1 : n / 10 < f := by
        have : n / 10 < n := Nat.div_lt_self hpos (by omega)
        omega
      have hn : ¬ n < 10 := by
        intro hc
        exact h10 (Nat.div_eq_of_lt hc)
      rw [Nat.toDigitsCore]
      rw [if_neg h10, ih (n / 10) _ h1]
      conv_rhs => rw [decDigits, dif_neg hn]
      simp [List.append_assoc]

theorem digitChar_toNat : ∀ n < 10, (Nat.digitChar n).toNat = 48 + n := by decide

theorem decDigits_foldl (n : Nat) :
    ∀ init : Nat,
      List.foldl (fun a c => 10 * a + (c.toNat - 48)) init (decDigits n) =
        init * 10 ^ (decDigits n).length + n := by
  induction n using Nat.strong_induction_on with
  | _ n ih =>
    intro init
    by_cases hn : n < 10
    · rw [decDigits, dif_pos hn]
      simp [digitChar_toNat n hn]
      ring
    · rw [decDigits, dif_neg hn]
      rw [List.foldl_append]
      rw [ih (n / 10) (Nat.div_lt_self (by omega) (by omega)) init]
      have hm : n % 10 < 10 := Nat.mod_lt _ (by omega)
      simp [digitChar_toNat _ hm, List.length_append]
      rw [pow_succ]
      have := Nat.div_add_mod n 10
      ring_nf
      omega

theorem decDigits_injective {m n : Nat} (h : decDigits m = decDigits n) : m = n := by
  have hm := decDigits_foldl m 0
  have hn := decDigits_foldl n 0
  rw [h] at hm
  simp at hm hn
  omega

theorem natRepr_injective {m n : Nat} (h : Nat.repr m = Nat.repr n) : m = n := by
  apply decDigits_injective
  have hm : Nat.repr m = (decDigits m).asString := by
    rw [Nat.repr, Nat.toDigits,
      toDigitsCore_eq_decDigits (m + 1) m [] (Nat.lt_succ_self m), List.append_nil]
  have hn : Nat.repr n = (decDigits n).asString := by
    rw [Nat.repr, Nat.toDigits,
      toDigitsCore_eq_decDigits (n + 1) n [] (Nat.lt_succ_self n), List.append_nil]
  rw [hm, hn] at h
  simpa [List.asString, String.ext_iff] using h

theorem string_append_left_cancel {s t u : String} (h : s ++ t = s ++ u) : t = u := by
  cases s with
  | mk sd =>
    cases t with
    | mk td =>
      cases u with
      | mk ud =>
        simp only [HAppend.hAppend, Append.append, String.append, String.ext_iff] at h ⊢
        simpa using h

theorem miKey_injective (i j : Nat) : miKey i = miKey j ↔ i = j := by
  constructor
  · intro h
    exact natRepr_injective (string_append_left_cancel h)
  · intro h
    rw [h]

/-- C8: within bootstrap `i`, only the master rank (rank 0) computes the
CLR statistic and publishes it, under the key `miKey i` which no other
bootstrap uses; every non-master rank's only shared-store access is the
blocking `view` of that key, occurring before its regression call; and
after regression only the master removes the key (`kvs.get`). -/
theorem run_bootstrap_rendezvous (rank i j : Nat) :
    (KvsEvent.put (miKey i) ∈ runBootstrapTrace rank i ↔ rank = 0) ∧
    (∀ k, KvsEvent.put k ∈ runBootstrapTrace rank i → k = miKey i) ∧
    (KvsEvent.computeCLR ∈ runBootstrapTrace rank i ↔ rank = 0) ∧
    (miKey i = miKey j ↔ i = j) ∧
    (rank ≠ 0 → runBootstrapTrace rank i = [.view (miKey i), .runRegression]) ∧
    (KvsEvent.kvsGet (miKey i) ∈ runBootstrapTrace rank i ↔ rank = 0) ∧
    (∀ k, KvsEvent.kvsGet k ∈ runBootstrapTrace rank i → k = miKey i) ∧
    (rank = 0 → runBootstrapTrace rank i =
      [.computeCLR, .put (miKey i), .runRegression, .kvsGet (miKey i)]) := by
  by_cases h : rank = 0
  · subst h
    refine ⟨by simp [runBootstrapTrace], ?_, by simp [runBootstrapTrace],
      miKey_injective i j, by simp, by simp [runBootstrapTrace], ?_,
      fun _ => by simp [runBootstrapTrace]⟩
    · intro k hk
      simp [runBootstrapTrace] at hk
      exact hk
    · intro k hk
      simp [runBootstrapTrace] at hk
      exact hk
  · refine ⟨by simp [runBootstrapTrace, h], ?_, by simp [runBootstrapTrace, h],
      miKey_injective i j, fun _ => by simp [runBootstrapTrace, h],
      by simp [runBootstrapTrace, h], ?_, fun hc => absurd hc h⟩
    · intro k hk
      simp [runBootstrapTrace, h] at hk
    · intro k hk
      simp [runBootstrapTrace, h] at hk

/-- Witness for C8 at ranks 0 and 1, bootstrap ordinals 7 and 8. -/
theorem run_bootstrap_rendezvous_witness :
    runBootstrapTrace 1 7 = [.view (miKey 7), .runRegression] ∧
    runBootstrapTrace 0 7 =
      [.computeCLR, .put (miKey 7), .runRegression, .kvsGet (miKey 7)] ∧
    (miKey 7 = miKey 8 ↔ 7 = 8) :=
  ⟨(run_bootstrap_rendezvous 1 7 8).2.2.2.2.1 (by decide),
   (run_bootstrap_rendezvous 0 7 8).2.2.2.2.2.2.2 rfl,
   (run_bootstrap_rendezvous 0 7 8).2.2.2.1⟩

/-- C9: duplicate labels in the loaded priors index or columns never abort
`set_gold_standard_and_priors`: the result tables are exactly the loaded
ones (duplicates included) and the failed uniqueness checks only emit
warnings — warnings are present exactly when duplicates are. -/
theorem set_gold_standard_and_priors_warns (p g : PTable) :
    (setGoldStandardAndPriors p g).1 = (p, g) ∧
    ((¬ p.index.Nodup ∨ ¬ p.columns.Nodup) →
      (setGoldStandardAndPriors p g).2 ≠ []) ∧
    (p.index.Nodup ∧ p.columns.Nodup → (setGoldStandardAndPriors p g).2 = []) := by
  refine ⟨rfl, ?_, ?_⟩
  · intro h
    simp only [setGoldStandardAndPriors, indexValuesUnique]
    rcases h with h | h
    · rw [if_neg h]
      simp
    · by_cases h2 : p.index.Nodup
      · rw [if_pos h2, if_neg h]
        simp
      · rw [if_neg h2]
        simp
  · rintro ⟨h1, h2⟩
    simp [setGoldStandardAndPriors, indexValuesUnique, h1, h2]

/-- Witness for C9: a priors table with a duplicated gene label passes
through unchanged, with a warning emitted. -/
theorem set_gold_standard_and_priors_warns_witness :
    (setGoldStandardAndPriors dupPriors demoGold).1 = (dupPriors, demoGold) ∧
    (setGoldStandardAndPriors dupPriors demoGold).2 ≠ [] :=
  ⟨(set_gold_standard_and_priors_warns dupPriors demoGold).1,
   (set_gold_standard_and_priors_warns dupPriors demoGold).2.1 (Or.inl (by decide))⟩

/-- C1 (code bug): assigning new sample metadata to a store that already
holds a metadata column does not column-merge.  `pd.concat` is called
without `axis=1`, so the reindexed new table and the kept old columns are
stacked row-wise into a table with twice the sample count (index
`[s0, s1, s0, s1]`), and the AnnData `obs` assignment fails its length
validation instead of producing the merged 2-row table the claim (and the
code's own comment) describes. -/
theorem meta_data_concat_axis_bug :
    metaDataSet c1Store c1NewMeta =
      .error "ValueError: observation annotations must have as many rows as the data matrix" ∧
    (pdConcatRows (dfReindex c1NewMeta c1Store.sampleNames)
        (dfSelectCols c1Store.obs
          (indexDifference c1Store.obs.cols
            (dfReindex c1NewMeta c1Store.sampleNames).cols))).index =
      ["s0", "s1", "s0", "s1"] :=
  ⟨rfl, rfl⟩

end Inferelator
